import Mathlib

set_option maxRecDepth 8192

/-
Verification of the tab-mirroring scripts of this repository
(`temp.py`, `streamlit_app.py`, `download_tabs_with_resources.py`,
`webpage_explorer.py`): a shallow embedding of the slug generator, the
site-structure discoverer, the navigation-link rewriter, and the two
resource fetchers, together with theorems about them.
-/

namespace Port

/-! ### Slug generator (`slugify` in temp.py line 13 / streamlit_app.py line 45) -/

/-- Characters kept by the regex class `[a-z0-9]`. -/
def isSlugChar (c : Char) : Bool :=
  (97 ≤ c.toNat && c.toNat ≤ 122) || (48 ≤ c.toNat && c.toNat ≤ 57)

/-- One pass of `re.sub(r'[^a-z0-9]+', '-', s)`: each maximal run of
characters outside `[a-z0-9]` becomes a single hyphen.  `inRun` records
whether we are inside such a run whose hyphen was already emitted. -/
def subRunsAux (inRun : Bool) : List Char → List Char
  | [] => []
  | c :: rest =>
    if isSlugChar c then c :: subRunsAux false rest
    else if inRun then subRunsAux true rest
    else '-' :: subRunsAux true rest

def subRuns (l : List Char) : List Char := subRunsAux false l

/-- Drop the maximal suffix whose characters satisfy `p`
(the right half of Python `str.strip`). -/
def dropRightWhile (p : Char → Bool) : List Char → List Char
  | [] => []
  | c :: rest =>
    match dropRightWhile p rest with
    | [] => if p c then [] else [c]
    | d :: ds => c :: d :: ds

/-- Python `str.strip(chars)`: drop the characters satisfying `p`
from both ends. -/
def stripChars (p : Char → Bool) (l : List Char) : List Char :=
  dropRightWhile p (l.dropWhile p)

/-- Function `slugify` (temp.py line 13, streamlit_app.py line 45):
`re.sub(r'[^a-z0-9]+', '-', text.strip().lower()).strip('-') or 'untitled'`.
`Char.isWhitespace` / `Char.toLower` model Python's `str.strip()` /
`str.lower()`; they agree on ASCII, and every character outside ASCII
`[a-z0-9]` is replaced by a hyphen by the substitution either way. -/
def slugify (s : String) : String :=
  let core := stripChars (fun c => c == '-')
    (subRuns ((stripChars Char.isWhitespace s.data).map Char.toLower))
  if core = [] then "untitled" else String.mk core

/-! #### Lemmas about `slugify` -/

lemma slug_bounds {c : Char} (h : isSlugChar c = true) :
    48 ≤ c.toNat ∧ c.toNat ≤ 122 := by
  simp only [isSlugChar, Bool.or_eq_true, Bool.and_eq_true, decide_eq_true_eq] at h
  omega

lemma slug_ne_hyphen {c : Char} (h : isSlugChar c = true) : (c == '-') = false := by
  simp only [beq_eq_false_iff_ne, ne_eq]
  intro hc
  have := slug_bounds h
  subst hc
  simp at this

lemma slug_not_ws {c : Char} (h : isSlugChar c = true) : c.isWhitespace = false := by
  have hb := slug_bounds h
  simp only [Char.isWhitespace, Bool.or_eq_false_iff, decide_eq_false_iff_not]
  refine ⟨⟨⟨?_, ?_⟩, ?_⟩, ?_⟩ <;>
    (intro hc; rw [hc] at hb; simp at hb)

lemma hyphen_not_ws : ('-' : Char).isWhitespace = false := by decide

lemma toLower_fixed {c : Char} (h : ¬ (65 ≤ c.toNat ∧ c.toNat ≤ 90)) :
    c.toLower = c := by
  simp only [Char.toLower]
  rw [if_neg]
  omega

lemma slug_toLower_fixed {c : Char} (h : isSlugChar c = true) : c.toLower = c := by
  apply toLower_fixed
  simp only [isSlugChar, Bool.or_eq_true, Bool.and_eq_true, decide_eq_true_eq] at h
  omega

lemma hyphen_toLower_fixed : ('-' : Char).toLower = '-' := by decide

/-- Every character emitted by `subRunsAux` is a slug character or a hyphen. -/
lemma subRunsAux_mem : ∀ (l : List Char) (b : Bool) (c : Char),
    c ∈ subRunsAux b l → isSlugChar c = true ∨ c = '-'
  | [], b, c, h => by simp [subRunsAux] at h
  | a :: rest, b, c, h => by
    simp only [subRunsAux] at h
    by_cases ha : isSlugChar a
    · rw [if_pos ha] at h
      rcases List.mem_cons.mp h with h | h
      · exact Or.inl (h ▸ ha)
      · exact subRunsAux_mem rest false c h
    · rw [if_neg ha] at h
      cases b with
      | true => exact subRunsAux_mem rest true c (by simpa using h)
      | false =>
        simp only [Bool.false_eq_true, if_false] at h
        rcases List.mem_cons.mp h with h | h
        · exact Or.inr h
        · exact subRunsAux_mem rest true c h

/-- In the `inRun = true` state the next emitted character is a slug
character, never a hyphen. -/
lemma subRunsAux_true_head : ∀ (l : List Char),
    (subRunsAux true l).head? = some '-' → False
  | [] => by simp [subRunsAux]
  | a :: rest => by
    by_cases ha : isSlugChar a
    · simp only [subRunsAux, ha, if_true]
      intro h
      simp only [List.head?_cons, Option.some.injEq] at h
      rw [h] at ha
      exact absurd ha (by decide)
    · simp only [subRunsAux, ha, if_false, if_true]
      exact subRunsAux_true_head rest

/-- Adjacent-hyphen freedom. -/
def noHH : List Char → Bool
  | a :: b :: t => (!(a == '-' && b == '-')) && noHH (b :: t)
  | _ => true

lemma noHH_cons {a : Char} {l : List Char} :
    noHH (a :: l) = true ↔
      ((l.head? = some '-' → ¬ a = '-') ∧ noHH l = true) := by
  cases l with
  | nil => simp [noHH]
  | cons b t =>
    simp only [noHH, Bool.and_eq_true, Bool.not_eq_true', Bool.and_eq_false_iff,
      beq_eq_false_iff_ne, ne_eq, List.head?_cons, Option.some.injEq, beq_iff_eq]
    constructor
    · rintro ⟨h1, h2⟩
      refine ⟨?_, h2⟩
      intro hb ha
      rcases h1 with h | h
      · exact h ha
      · exact h hb
    · rintro ⟨h1, h2⟩
      refine ⟨?_, h2⟩
      by_cases hb : b = '-'
      · exact Or.inl (h1 hb)
      · exact Or.inr hb

lemma noHH_tail {a : Char} {l : List Char} (h : noHH (a :: l) = true) :
    noHH l = true := (noHH_cons.mp h).2

/-- The substitution never emits two adjacent hyphens. -/
lemma subRunsAux_noHH : ∀ (l : List Char) (b : Bool),
    noHH (subRunsAux b l) = true
  | [], b => by simp [subRunsAux, noHH]
  | a :: rest, b => by
    simp only [subRunsAux]
    by_cases ha : isSlugChar a
    · rw [if_pos ha]
      rw [noHH_cons]
      refine ⟨?_, subRunsAux_noHH rest false⟩
      intro _ haa
      rw [haa] at ha
      exact absurd ha (by decide)
    · rw [if_neg ha]
      cases b with
      | true => simpa using subRunsAux_noHH rest true
      | false =>
        simp only [Bool.false_eq_true, if_false]
        rw [noHH_cons]
        refine ⟨?_, subRunsAux_noHH rest true⟩
        intro hh _
        exact subRunsAux_true_head rest hh

/-- Fixpoint: on a list of slug characters and isolated hyphens, with no
leading hyphen demanded in the `inRun` state, the substitution is the
identity. -/
lemma subRunsAux_fix : ∀ (l : List Char) (b : Bool),
    (∀ c ∈ l, isSlugChar c = true ∨ c = '-') →
    noHH l = true →
    (b = true → ¬ l.head? = some '-') →
    subRunsAux b l = l
  | [], b, _, _, _ => by cases b <;> simp [subRunsAux]
  | a :: rest, b, hmem, hnh, hhd => by
    simp only [subRunsAux]
    by_cases ha : isSlugChar a
    · rw [if_pos ha]
      rw [subRunsAux_fix rest false (fun c hc => hmem c (List.mem_cons_of_mem a hc))
        (noHH_tail hnh) (by simp)]
    · rw [if_neg ha]
      have hah : a = '-' := by
        rcases hmem a (List.mem_cons_self a rest) with h | h
        · exact absurd h ha
        · exact h
      cases b with
      | true =>
        exfalso
        exact hhd rfl (by simp [hah])
      | false =>
        simp only [Bool.false_eq_true, if_false]
        rw [hah]
        rw [subRunsAux_fix rest true (fun c hc => hmem c (List.mem_cons_of_mem a hc))
          (noHH_tail hnh)
          (fun _ hh => (noHH_cons.mp hnh).1 hh hah)]

lemma dropWhile_mem {p : Char → Bool} : ∀ {l : List Char} {c : Char},
    c ∈ l.dropWhile p → c ∈ l := by
  intro l
  induction l with
  | nil => intro c h; simp [List.dropWhile] at h
  | cons a t ih =>
    intro c h
    cases ha : p a with
    | true =>
      simp only [List.dropWhile, ha] at h
      exact List.mem_cons_of_mem a (ih h)
    | false =>
      simp only [List.dropWhile, ha] at h
      exact h

lemma dropRightWhile_mem {p : Char → Bool} : ∀ {l : List Char} {c : Char},
    c ∈ dropRightWhile p l → c ∈ l := by
  intro l
  induction l with
  | nil => intro c h; simp [dropRightWhile] at h
  | cons a t ih =>
    intro c h
    rw [dropRightWhile] at h
    rcases hd : dropRightWhile p t with _ | ⟨d, ds⟩
    · rw [hd] at h
      by_cases ha : p a
      · rw [if_pos ha] at h; simp at h
      · rw [if_neg ha] at h
        simp only [List.mem_singleton] at h
        exact h ▸ List.mem_cons_self c t
    · rw [hd] at h
      rcases List.mem_cons.mp h with h | h
      · exact h ▸ List.mem_cons_self c t
      · exact List.mem_cons_of_mem a (ih (hd ▸ h))

lemma stripChars_mem {p : Char → Bool} {l : List Char} {c : Char}
    (h : c ∈ stripChars p l) : c ∈ l :=
  dropWhile_mem (dropRightWhile_mem h)

lemma dropWhile_head {p : Char → Bool} : ∀ {l : List Char} {c : Char},
    (l.dropWhile p).head? = some c → p c = false := by
  intro l
  induction l with
  | nil => intro c h; simp [List.dropWhile] at h
  | cons a t ih =>
    intro c h
    cases ha : p a with
    | true =>
      simp only [List.dropWhile, ha] at h
      exact ih h
    | false =>
      simp only [List.dropWhile, ha] at h
      simp only [List.head?_cons, Option.some.injEq] at h
      rw [← h]
      exact ha

/-- Dropping a suffix preserves the head of the list. -/
lemma dropRightWhile_head {p : Char → Bool} : ∀ {l : List Char} {c : Char},
    (dropRightWhile p l).head? = some c → l.head? = some c := by
  intro l
  cases l with
  | nil => intro c h; simp [dropRightWhile] at h
  | cons a t =>
    intro c h
    rw [dropRightWhile] at h
    rcases hd : dropRightWhile p t with _ | ⟨d, ds⟩
    · rw [hd] at h
      by_cases ha : p a
      · rw [if_pos ha] at h; simp at h
      · rw [if_neg ha] at h
        simpa using h
    · rw [hd] at h
      simpa using h

lemma dropRightWhile_last {p : Char → Bool} : ∀ {l : List Char} {c : Char},
    (dropRightWhile p l).getLast? = some c → p c = false := by
  intro l
  induction l with
  | nil => intro c h; simp [dropRightWhile] at h
  | cons a t ih =>
    intro c h
    rw [dropRightWhile] at h
    rcases hd : dropRightWhile p t with _ | ⟨d, ds⟩
    · rw [hd] at h
      by_cases ha : p a
      · rw [if_pos ha] at h; simp at h
      · rw [if_neg ha] at h
        simp only [List.getLast?_singleton, Option.some.injEq] at h
        rw [← h]
        exact Bool.of_not_eq_true ha
    · rw [hd] at h
      rw [List.getLast?_cons_cons] at h
      exact ih (hd ▸ h)

lemma noHH_dropWhile {p : Char → Bool} : ∀ {l : List Char},
    noHH l = true → noHH (l.dropWhile p) = true := by
  intro l
  induction l with
  | nil => intro h; simpa [List.dropWhile] using h
  | cons a t ih =>
    intro h
    cases ha : p a with
    | true =>
      simp only [List.dropWhile, ha]
      exact ih (noHH_tail h)
    | false =>
      simp only [List.dropWhile, ha]
      exact h

lemma noHH_dropRightWhile {p : Char → Bool} : ∀ {l : List Char},
    noHH l = true → noHH (dropRightWhile p l) = true := by
  intro l
  induction l with
  | nil => intro h; simpa [dropRightWhile] using h
  | cons a t ih =>
    intro h
    rw [dropRightWhile]
    rcases hd : dropRightWhile p t with _ | ⟨d, ds⟩
    · by_cases ha : p a
      · rw [if_pos ha]; simp [noHH]
      · rw [if_neg ha]; simp [noHH]
    · rw [noHH_cons]
      refine ⟨?_, hd ▸ ih (noHH_tail h)⟩
      intro hh ha
      have : t.head? = some '-' := by
        apply dropRightWhile_head (p := p)
        rw [hd]
        simpa using hh
      exact (noHH_cons.mp h).1 this ha

lemma dropWhile_fix {p : Char → Bool} {l : List Char}
    (h : ∀ c, l.head? = some c → p c = false) : l.dropWhile p = l := by
  cases l with
  | nil => simp [List.dropWhile]
  | cons a t =>
    simp only [List.dropWhile, h a rfl]

lemma dropRightWhile_fix {p : Char → Bool} : ∀ {l : List Char},
    (∀ c, l.getLast? = some c → p c = false) → dropRightWhile p l = l := by
  intro l
  induction l with
  | nil => intro _; simp [dropRightWhile]
  | cons a t ih =>
    intro h
    rw [dropRightWhile]
    cases t with
    | nil =>
      simp only [dropRightWhile]
      rw [if_neg]
      simp [h a rfl]
    | cons b u =>
      have ht : dropRightWhile p (b :: u) = b :: u := by
        apply ih
        intro c hc
        apply h
        rw [List.getLast?_cons_cons]
        exact hc
      rw [ht]

lemma map_id_of_mem {f : Char → Char} : ∀ (l : List Char),
    (∀ c ∈ l, f c = c) → l.map f = l
  | [], _ => rfl
  | a :: t, h => by
    simp only [List.map_cons, List.cons.injEq]
    exact ⟨h a (List.mem_cons_self a t),
      map_id_of_mem t (fun c hc => h c (List.mem_cons_of_mem a hc))⟩

/-- The characters of `slugify`'s pre-fallback core. -/
def slugCore (s : String) : List Char :=
  stripChars (fun c => c == '-')
    (subRuns ((stripChars Char.isWhitespace s.data).map Char.toLower))

lemma slugify_eq_core (s : String) :
    slugify s = if slugCore s = [] then "untitled" else String.mk (slugCore s) := rfl

lemma slugCore_mem {s : String} {c : Char} (h : c ∈ slugCore s) :
    isSlugChar c = true ∨ c = '-' :=
  subRunsAux_mem _ false c (stripChars_mem h)

/-- The core is a fixpoint of the whole `slugify` pipeline. -/
lemma slugCore_fix (s : String) :
    slugCore (String.mk (slugCore s)) = slugCore s := by
  set L := slugCore s with hL
  have hmem : ∀ c ∈ L, isSlugChar c = true ∨ c = '-' := fun c hc => slugCore_mem (hL ▸ hc)
  have hnws : ∀ c ∈ L, c.isWhitespace = false := by
    intro c hc
    rcases hmem c hc with h1 | h1
    · exact slug_not_ws h1
    · rw [h1]; exact hyphen_not_ws
  have hlow : ∀ c ∈ L, c.toLower = c := by
    intro c hc
    rcases hmem c hc with h1 | h1
    · exact slug_toLower_fixed h1
    · rw [h1]; exact hyphen_toLower_fixed
  have hnh : noHH L = true := by
    rw [hL]
    exact noHH_dropRightWhile (noHH_dropWhile (subRunsAux_noHH _ false))
  have hhd : ∀ c, L.head? = some c → (c == '-') = false := by
    intro c hc
    rw [hL] at hc
    unfold slugCore stripChars at hc
    exact dropWhile_head (p := fun c => c == '-') (dropRightWhile_head hc)
  have hls : ∀ c, L.getLast? = some c → (c == '-') = false := by
    intro c hc
    rw [hL] at hc
    unfold slugCore stripChars at hc
    exact dropRightWhile_last (p := fun c => c == '-') hc
  show stripChars (fun c => c == '-')
      (subRuns ((stripChars Char.isWhitespace (String.mk L).data).map Char.toLower)) = L
  have hdata : (String.mk L).data = L := rfl
  rw [hdata]
  have hstrip1 : stripChars Char.isWhitespace L = L := by
    unfold stripChars
    rw [dropWhile_fix (fun c hc => hnws c (List.mem_of_mem_head? hc))]
    exact dropRightWhile_fix (fun c hc => hnws c (List.mem_of_mem_getLast? hc))
  rw [hstrip1]
  have hmap : L.map Char.toLower = L := map_id_of_mem L hlow
  rw [hmap]
  have hsub : subRuns L = L := by
    unfold subRuns
    exact subRunsAux_fix L false hmem hnh (by simp)
  rw [hsub]
  unfold stripChars
  rw [dropWhile_fix (fun c hc => hhd c hc)]
  exact dropRightWhile_fix (fun c hc => hls c hc)

/-- C6 helper: `slugify "untitled" = "untitled"`. -/
lemma slugify_untitled : slugify "untitled" = "untitled" := by decide

/-- C6: `slugify` lower-cases its input, replaces each maximal run of
characters outside `[a-z0-9]` with a single hyphen, strips leading and
trailing hyphens, and falls back to `"untitled"` when this leaves nothing;
consequently it is idempotent and always returns a non-empty string whose
characters all lie in `[a-z0-9-]`. -/
theorem slugify_idempotent_and_shape (s : String) :
    slugify (slugify s) = slugify s ∧
    slugify s ≠ "" ∧
    (slugify s).data.all (fun c => isSlugChar c || c == '-') = true := by
  rw [slugify_eq_core s]
  by_cases h : slugCore s = []
  · rw [if_pos h]
    refine ⟨slugify_untitled, by decide, by decide⟩
  · rw [if_neg h]
    refine ⟨?_, ?_, ?_⟩
    · rw [slugify_eq_core (String.mk (slugCore s)), slugCore_fix s, if_neg h]
    · intro hc
      exact h (by simpa using congrArg String.data hc)
    · rw [List.all_eq_true]
      intro c hc
      have : c ∈ slugCore s := by simpa using hc
      rcases slugCore_mem this with h1 | h1
      · simp [h1]
      · simp [h1]

/-! ### Site structure discoverer
(`discover_site_structure`, temp.py lines 87-118 / streamlit_app.py lines 169-200)

The browser interaction is modelled by a `TabObs` per top-level tab: the
tab's label together with the contents of every `[role="tablist"]`
container observed in the DOM after clicking that tab (each inner list is
the sequence of `inner_text()`s of that container's `[role="tab"]`
elements). -/

structure TabObs where
  name : String
  tablists : List (List String)
deriving DecidableEq

/-- The `slug → path` pairs one loop iteration of `discover_site_structure`
inserts into `site_map`, in insertion order:
* `len(all_tablists) <= 1`: the single entry `main_slug ↦ main_slug/index.html`;
* otherwise, with sub-tabs present in `all_tablists[1]`: the main slug maps
  to the first sub-tab's file, then every sub-tab gets its own entry;
* otherwise (second tab-list empty): nothing. -/
def contrib (t : TabObs) : List (String × String) :=
  let mainSlug := slugify t.name
  match t.tablists with
  | [] => [(mainSlug, mainSlug ++ "/index.html")]
  | [_] => [(mainSlug, mainSlug ++ "/index.html")]
  | _ :: subs :: _ =>
    match subs with
    | [] => []
    | first :: _ =>
      (mainSlug, mainSlug ++ "/" ++ slugify first ++ ".html") ::
        subs.map (fun s => (slugify s, mainSlug ++ "/" ++ slugify s ++ ".html"))

/-- A Python `dict` modelled as an association list in which the most
recent insertion comes first (so later insertions shadow earlier ones,
matching `site_map[k] = v` overwrite semantics). -/
def dictGet : List (String × String) → String → Option String
  | [], _ => none
  | (a, b) :: t, k => if a = k then some b else dictGet t k

/-- Function `discover_site_structure`: fold over the top-level tabs, inserting each
tab's contributed entries in order. -/
def discover_site_structure (tabs : List TabObs) : List (String × String) :=
  tabs.foldl (fun m t => (contrib t).foldl (fun m' kv => kv :: m') m) []

/-- All contributed entries of all tabs, in iteration order. -/
def allContribs : List TabObs → List (String × String)
  | [] => []
  | t :: ts => contrib t ++ allContribs ts

lemma foldl_cons_eq (l : List (String × String)) (m : List (String × String)) :
    l.foldl (fun m' kv => kv :: m') m = l.reverse ++ m := by
  induction l generalizing m with
  | nil => simp
  | cons a t ih => simp [List.foldl_cons, ih]

lemma discover_eq_aux (tabs : List TabObs) (m : List (String × String)) :
    tabs.foldl (fun m t => (contrib t).foldl (fun m' kv => kv :: m') m) m
      = (allContribs tabs).reverse ++ m := by
  induction tabs generalizing m with
  | nil => simp [allContribs]
  | cons t ts ih =>
    simp only [List.foldl_cons, allContribs, List.reverse_append, List.append_assoc]
    rw [ih, foldl_cons_eq]

lemma discover_eq (tabs : List TabObs) :
    discover_site_structure tabs = (allContribs tabs).reverse := by
  unfold discover_site_structure
  rw [discover_eq_aux]
  simp

lemma mem_allContribs {t : TabObs} {tabs : List TabObs} (ht : t ∈ tabs)
    {kv : String × String} (hkv : kv ∈ contrib t) : kv ∈ allContribs tabs := by
  induction tabs with
  | nil => simp at ht
  | cons a ts ih =>
    rcases List.mem_cons.mp ht with h | h
    · subst h
      exact List.mem_append.mpr (Or.inl hkv)
    · exact List.mem_append.mpr (Or.inr (ih h))

lemma dictGet_of_not_mem_keys {l : List (String × String)} {k : String}
    (h : ∀ kv ∈ l, kv.1 ≠ k) : dictGet l k = none := by
  induction l with
  | nil => rfl
  | cons a t ih =>
    rw [dictGet, if_neg (h a (List.mem_cons_self a t))]
    exact ih (fun kv hkv => h kv (List.mem_cons_of_mem a hkv))

lemma dictGet_of_nodup {l : List (String × String)} {k v : String}
    (hnd : (l.map Prod.fst).Nodup) (hm : (k, v) ∈ l) : dictGet l k = some v := by
  induction l with
  | nil => simp at hm
  | cons a t ih =>
    rw [List.map_cons, List.nodup_cons] at hnd
    rcases List.mem_cons.mp hm with h | h
    · rw [← h]
      simp [dictGet]
    · rw [dictGet]
      have ha : a.1 ≠ k := by
        intro he
        exact hnd.1 (he ▸ (List.mem_map.mpr ⟨(k, v), h, rfl⟩))
      rw [if_neg ha]
      exact ih hnd.2 h

lemma dictGet_discover {tabs : List TabObs} {k v : String}
    (hnd : ((allContribs tabs).map Prod.fst).Nodup)
    (hm : (k, v) ∈ allContribs tabs) :
    dictGet (discover_site_structure tabs) k = some v := by
  rw [discover_eq]
  apply dictGet_of_nodup
  · rw [List.map_reverse]
    exact List.nodup_reverse.mpr hnd
  · exact List.mem_reverse.mpr hm

/-- C4: For every discovered top-level tab: with no second tab-list its
slug maps to `slug/index.html`; with a second tab-list carrying sub-tabs,
the top-level slug maps to the first sub-tab's file and every sub-tab gets
its own entry under the top-level directory (provided no two contributed
entries collide on their slug, the documented last-write-wins caveat). -/
theorem discover_site_map_entries (tabs : List TabObs) (t : TabObs)
    (ht : t ∈ tabs)
    (hnd : ((allContribs tabs).map Prod.fst).Nodup) :
    (t.tablists.length ≤ 1 →
      dictGet (discover_site_structure tabs) (slugify t.name)
        = some (slugify t.name ++ "/index.html")) ∧
    (∀ l0 first rest lrest, t.tablists = l0 :: (first :: rest) :: lrest →
      dictGet (discover_site_structure tabs) (slugify t.name)
        = some (slugify t.name ++ "/" ++ slugify first ++ ".html") ∧
      ∀ s ∈ first :: rest,
        dictGet (discover_site_structure tabs) (slugify s)
          = some (slugify t.name ++ "/" ++ slugify s ++ ".html") ∧
        (slugify t.name ++ "/" ++ slugify s ++ ".html")
          = (slugify t.name ++ "/") ++ (slugify s ++ ".html")) := by
  constructor
  · intro hlen
    have hc : contrib t = [(slugify t.name, slugify t.name ++ "/index.html")] := by
      unfold contrib
      rcases hx : t.tablists with _ | ⟨l0, _ | ⟨l1, lr⟩⟩
      · rfl
      · rfl
      · rw [hx] at hlen; simp at hlen
    exact dictGet_discover hnd (mem_allContribs ht (hc ▸ List.mem_cons_self _ _))
  · intro l0 first rest lrest hx
    have hc : contrib t
        = (slugify t.name, slugify t.name ++ "/" ++ slugify first ++ ".html") ::
          (first :: rest).map
            (fun s => (slugify s, slugify t.name ++ "/" ++ slugify s ++ ".html")) := by
      unfold contrib
      rw [hx]
    constructor
    · exact dictGet_discover hnd (mem_allContribs ht (hc ▸ List.mem_cons_self _ _))
    · intro s hs
      refine ⟨?_, by simp [String.append_assoc]⟩
      apply dictGet_discover hnd
      apply mem_allContribs ht
      rw [hc]
      exact List.mem_cons_of_mem _ (List.mem_map.mpr ⟨s, hs, rfl⟩)

/-- C10: If after clicking a top-level tab more than one tab-list is
present but the second one has no sub-tabs, `discover_site_structure` adds
no entry at all for that tab: the resulting site map is the one computed
without the tab. -/
theorem discover_drops_tab_with_empty_second_tablist
    (xs ys : List TabObs) (t : TabObs) (l0 : List String)
    (lrest : List (List String)) (h : t.tablists = l0 :: [] :: lrest) :
    discover_site_structure (xs ++ t :: ys) = discover_site_structure (xs ++ ys) := by
  have hc : contrib t = [] := by
    unfold contrib
    rw [h]
  rw [discover_eq, discover_eq]
  have : ∀ zs : List TabObs, allContribs (zs ++ t :: ys) = allContribs (zs ++ ys) := by
    intro zs
    induction zs with
    | nil => simp [allContribs, hc]
    | cons a zt ih => simp [allContribs, ih]
  rw [this]

/-- Witness for C4 on the spec's end-to-end scenario: tabs About and
Tokens, the latter with sub-tabs Price and Supply. -/
theorem discover_site_map_entries_witness :
    dictGet (discover_site_structure
        [⟨"About", [["About", "Tokens"]]⟩,
         ⟨"Tokens", [["About", "Tokens"], ["Price", "Supply"]]⟩]) "tokens"
      = some "tokens/price.html" ∧
    dictGet (discover_site_structure
        [⟨"About", [["About", "Tokens"]]⟩,
         ⟨"Tokens", [["About", "Tokens"], ["Price", "Supply"]]⟩]) "supply"
      = some "tokens/supply.html" := by
  have h := discover_site_map_entries
    [⟨"About", [["About", "Tokens"]]⟩,
     ⟨"Tokens", [["About", "Tokens"], ["Price", "Supply"]]⟩]
    ⟨"Tokens", [["About", "Tokens"], ["Price", "Supply"]]⟩
    (by decide) (by decide)
  have h2 := h.2 ["About", "Tokens"] "Price" ["Supply"] [] rfl
  have hp : slugify "Tokens" = "tokens" := by decide
  have hq : slugify "Supply" = "supply" := by decide
  have hr : slugify "Price" = "price" := by decide
  constructor
  · have := h2.1
    rw [hp, hr] at this
    exact this
  · have := (h2.2 "Supply" (by decide)).1
    rw [hp, hq] at this
    exact this

/-- Witness for C10: a tab whose second tab-list is empty contributes
nothing. -/
theorem discover_drops_tab_witness :
    discover_site_structure
        [⟨"Tokens", [["a"], []]⟩, ⟨"About", [["x"]]⟩]
      = discover_site_structure [⟨"About", [["x"]]⟩] :=
  discover_drops_tab_with_empty_second_tablist [] [⟨"About", [["x"]]⟩]
    ⟨"Tokens", [["a"], []]⟩ ["a"] [] rfl

/-! ### Filesystem paths

POSIX paths modelled as strings, manipulated through their `/`-separated
segments.  `cwdSegs` models the process working directory against which
`pathlib.Path.resolve()` absolutises relative paths. -/

def splitSlashAux (cur : List Char) : List Char → List String
  | [] => [String.mk cur.reverse]
  | c :: rest =>
    if c = '/' then String.mk cur.reverse :: splitSlashAux [] rest
    else splitSlashAux (c :: cur) rest

/-- Split a path on `/`, dropping empty segments. -/
def splitSlash (s : String) : List String :=
  (splitSlashAux [] s.data).filter (fun x => x ≠ "")

def joinSegs : List String → String
  | [] => ""
  | [a] => a
  | a :: b :: t => a ++ "/" ++ joinSegs (b :: t)

/-- Resolve `.` and `..` segments left to right (`..` at the root is
dropped, as `Path.resolve`/`urljoin` do). -/
def normSegs : List String → List String → List String
  | acc, [] => acc.reverse
  | acc, "." :: t => normSegs acc t
  | acc, ".." :: t => normSegs (acc.drop 1) t
  | acc, s :: t => normSegs (s :: acc) t

/-- Model of the process working directory (`os.getcwd()`), shared by every
`resolve()`/`os.path.relpath` call of one run. -/
def cwdSegs : List String := ["workdir"]

/-- Model of `pathlib.Path(p).resolve()` as absolute segments. -/
def resolveSegs (p : String) : List String := normSegs [] (cwdSegs ++ splitSlash p)

/-- Model of `pathlib.Path(p).parent`. -/
def parentDir (p : String) : String :=
  match (splitSlash p).dropLast with
  | [] => "."
  | segs => joinSegs segs

def dropCommon : List String → List String → List String × List String
  | a :: as, b :: bs => if a = b then dropCommon as bs else (a :: as, b :: bs)
  | as, bs => (as, bs)

/-- Model of `os.path.relpath(target, start)` on two absolute segment lists. -/
def relpathSegs (target start : List String) : List String :=
  let ts := dropCommon target start
  match ts.2.map (fun _ => "..") ++ ts.1 with
  | [] => ["."]
  | r => r

/-! ### Navigation link rewriter
(`rewrite_links`, temp.py lines 29-52 / streamlit_app.py lines 61-84)

The document is modelled as the flat list of elements returned by
`soup.select('a, button, [role="button"]')` interleaved with the elements
the selector does not match; each element carries the attributes the
function reads or writes and its visible text (`get_text()`). -/

structure NavEl where
  name : String
  role : Option String
  href : Option String
  cls : Option String
  style : Option String
  text : String
deriving DecidableEq

/-- Python `str.strip()` on a string. -/
def pyStripS (s : String) : String := String.mk (stripChars Char.isWhitespace s.data)

/-- Does `soup.select('a, button, [role="button"]')` match this element? -/
def isNavSelected (el : NavEl) : Bool :=
  el.name == "a" || el.name == "button" || el.role == some "button"

def navStyleSuffix : String :=
  " text-decoration: none; color: inherit; cursor: pointer;"

/-- The per-element action of `rewrite_links`: elements with matching text
in the site map either get their `href` overwritten (for `<a>`) or are
replaced by a fresh anchor carrying the element's class, extended style and
text (for buttons). -/
def rewriteEl (site_map : List (String × String))
    (current_html_path base_output_dir : String) (el : NavEl) : NavEl :=
  if isNavSelected el then
    let text := pyStripS el.text
    if text = "" then el
    else
      match dictGet site_map (slugify text) with
      | none => el
      | some rel =>
        let target := base_output_dir ++ "/" ++ rel
        let currentDir := parentDir current_html_path
        let relative := joinSegs (relpathSegs (resolveSegs target) (resolveSegs currentDir))
        if el.name == "a" then { el with href := some relative }
        else
          { name := "a", role := none, href := some relative,
            cls := match el.cls with
                   | some c => if c = "" then none else some c
                   | none => none,
            style := some ((el.style.getD "") ++ navStyleSuffix),
            text := el.text }
  else el

def rewrite_links (site_map : List (String × String))
    (current_html_path base_output_dir : String) (doc : List NavEl) : List NavEl :=
  doc.map (rewriteEl site_map current_html_path base_output_dir)

lemma rewriteEl_idem (sm : List (String × String)) (cur base : String) (el : NavEl) :
    rewriteEl sm cur base (rewriteEl sm cur base el) = rewriteEl sm cur base el := by
  by_cases h1 : isNavSelected el = true
  · by_cases h2 : pyStripS el.text = ""
    · simp [rewriteEl, h1, h2]
    · cases hdg : dictGet sm (slugify (pyStripS el.text)) with
      | none => simp [rewriteEl, h1, h2, hdg]
      | some rel =>
        by_cases h3 : el.name = "a"
        · simp [rewriteEl, h1, h2, hdg, h3, isNavSelected]
        · have hbr : el.name = "button" ∨ el.role = some "button" := by
            have h1' := h1
            simp [isNavSelected, h3] at h1'
            exact h1'
          rcases hbr with hb | hb
          · simp [rewriteEl, h1, h2, hdg, h3, isNavSelected, hb]
          · simp [rewriteEl, h1, h2, hdg, h3, isNavSelected, hb]
  · simp [rewriteEl, h1]

/-- C2, amended: The tree-based navigation rewriter `rewrite_links` is
idempotent: a second pass maps every element to itself, so the output is
identical; in particular an element that is already a correct local
hyperlink is left unmodified.  (The claim's universal statement over the
regex-based `process_html` pass fails, see the counterexample.) -/
theorem rewrite_links_idempotent (sm : List (String × String))
    (cur base : String) (doc : List NavEl) :
    rewrite_links sm cur base (rewrite_links sm cur base doc)
      = rewrite_links sm cur base doc := by
  unfold rewrite_links
  rw [List.map_map]
  induction doc with
  | nil => rfl
  | cons a t ih =>
    simp only [List.map_cons, List.cons.injEq]
    exact ⟨rewriteEl_idem sm cur base a, by simpa using ih⟩

/-- C7: With the site map sending `tokens` to `tokens/price.html`, the
rewriter applied to the page stored at `about/index.html` (under output
root `tab_snapshots`, as in `temp.py`) gives every `<a>` element whose
stripped visible text is `Tokens` the href `../tokens/price.html`. -/
theorem rewrite_links_tokens_scenario (doc : List NavEl) (el : NavEl)
    (hmem : el ∈ doc) (hname : el.name = "a")
    (htext : pyStripS el.text = "Tokens") :
    rewriteEl [("tokens", "tokens/price.html")]
        "tab_snapshots/about/index.html" "tab_snapshots" el
      = { el with href := some "../tokens/price.html" } ∧
    { el with href := some "../tokens/price.html" }
      ∈ rewrite_links [("tokens", "tokens/price.html")]
          "tab_snapshots/about/index.html" "tab_snapshots" doc := by
  have hsel : isNavSelected el = true := by
    simp [isNavSelected, hname]
  have hslug : slugify "Tokens" = "tokens" := by decide
  have hget : dictGet [("tokens", "tokens/price.html")] "tokens"
      = some "tokens/price.html" := rfl
  have hrel : joinSegs (relpathSegs
      (resolveSegs ("tab_snapshots" ++ "/" ++ "tokens/price.html"))
      (resolveSegs (parentDir "tab_snapshots/about/index.html")))
      = "../tokens/price.html" := by decide
  have h2 : rewriteEl [("tokens", "tokens/price.html")]
      "tab_snapshots/about/index.html" "tab_snapshots" el
      = { el with href := some "../tokens/price.html" } := by
    simp only [rewriteEl, hsel, if_true, htext, hslug, hget, hrel, hname]
    simp [hname]
  exact ⟨h2, List.mem_map.mpr ⟨el, hmem, h2⟩⟩

/-- Witness for C7 at a concrete anchor element. -/
theorem rewrite_links_tokens_scenario_witness :
    ({ name := "a", role := none, href := some "../tokens/price.html",
       cls := none, style := none, text := "Tokens" } : NavEl)
      ∈ rewrite_links [("tokens", "tokens/price.html")]
          "tab_snapshots/about/index.html" "tab_snapshots"
          [{ name := "a", role := none, href := none, cls := none,
             style := none, text := "Tokens" }] := by
  have h := rewrite_links_tokens_scenario
    [{ name := "a", role := none, href := none, cls := none,
       style := none, text := "Tokens" }]
    { name := "a", role := none, href := none, cls := none,
      style := none, text := "Tokens" }
    (by decide) rfl (by decide)
  exact h.2

/-! ### URL handling

Strings as URLs, in the shape the scripts handle: absolute `http(s)://`
URLs, scheme-relative `//...`, root-relative `/...`, path-relative, and
non-fetchable schemes (`data:`, `javascript:`, ...). -/

/-- Python `str.startswith`. -/
def strStartsWith (s pre : String) : Bool := pre.data.isPrefixOf s.data

def listInfix (sub : List Char) : List Char → Bool
  | [] => sub.isEmpty
  | l@(_ :: rest) => sub.isPrefixOf l || listInfix sub rest

/-- Python `sub in s`. -/
def strContains (s sub : String) : Bool := listInfix sub.data s.data

/-- Everything before the first occurrence of `c` (`s.split(c)[0]`). -/
def takeBefore (c : Char) (s : String) : String :=
  String.mk (s.data.takeWhile (fun d => d ≠ c))

/-- Model of `urlparse(u).scheme` for a URL written `scheme:...`. -/
def schemeOf (u : String) : String := takeBefore ':' u

def dropSchemePart (u : String) : List Char :=
  if strStartsWith u "https://" then u.data.drop 8
  else if strStartsWith u "http://" then u.data.drop 7
  else u.data

/-- Model of `urlparse(u).netloc` of an absolute http(s) URL. -/
def netlocOf (u : String) : String :=
  String.mk ((dropSchemePart u).takeWhile (fun c => c ≠ '/'))

/-- Model of `urlparse(u).path` of an absolute http(s) URL. -/
def urlPath (u : String) : String :=
  String.mk ((dropSchemePart u).dropWhile (fun c => c ≠ '/'))

/-- Model of `urlparse(u).hostname`: the netloc with any `:port` removed. -/
def hostOf (u : String) : String := takeBefore ':' (netlocOf u)

def isSchemeChar (c : Char) : Bool := c.isAlpha || c.isDigit || c = '+' || c = '-' || c = '.'

/-- Does the URL carry its own scheme (`letters:`...)? -/
def hasScheme (u : String) : Bool :=
  match u.data with
  | [] => false
  | c :: _ =>
    c.isAlpha &&
      (match u.data.dropWhile isSchemeChar with
       | ':' :: _ => true
       | _ => false)

/-- Model of `urllib.parse.urljoin(base, url)` for an absolute http(s) `base`:
a URL with its own scheme is returned unchanged (non-relative schemes such
as `mailto:`/`javascript:` included, as for http(s) bases the path merge
below only triggers for scheme-less references in this model's scope);
`//`-references adopt the base scheme; root-relative references replace the
path; path-relative references are merged against the base path's directory
and `.`/`..` segments are resolved with clamping at the root. -/
def urljoin (base url : String) : String :=
  if hasScheme url then url
  else if strStartsWith url "//" then schemeOf base ++ ":" ++ url
  else
    let root := schemeOf base ++ "://" ++ netlocOf base
    if strStartsWith url "/" then root ++ url
    else
      let baseSegs := (splitSlash (urlPath base)).dropLast
      let segs := normSegs [] (baseSegs ++ splitSlash url)
      root ++ "/" ++ joinSegs segs

/-- Model of `os.path.dirname`. -/
def dirnameStr (p : String) : String :=
  match p.data.reverse.dropWhile (fun c => c ≠ '/') with
  | [] => ""
  | _ :: t => String.mk t.reverse

/-- Model of `os.path.relpath(path, start)` for two paths relative to the same
working directory (Python absolutises both against `os.getcwd()`). -/
def os_relpath (path start : String) : String :=
  joinSegs (relpathSegs (resolveSegs path) (resolveSegs start))

/-! ### `TabDownloader` (download_tabs_with_resources.py)

`TDConfig` holds the constructor state derived from `base_url`
(lines 12-15); the HTTP session is an oracle `Nat → HttpResp` giving the
response of the n-th request of the run. -/

structure TDConfig where
  base_url : String
deriving DecidableEq

def TDConfig.scheme (cfg : TDConfig) : String := schemeOf cfg.base_url

/-- Field `base_domain` (line 15). -/
def TDConfig.base_domain (cfg : TDConfig) : String :=
  cfg.scheme ++ "://" ++ netlocOf cfg.base_url

inductive HttpResp where
  | err : HttpResp
  | status : Nat → String → String → HttpResp
deriving DecidableEq

/-- Did the attempt succeed (`response.status == 200`)?  `.err` models a
raised network exception. -/
def respOk : HttpResp → Bool
  | .status 200 _ _ => true
  | _ => false

/-- Method `TabDownloader.get_local_path` (lines 26-36). -/
def get_local_path (url tab_name : String) : String :=
  let path := String.mk ((urlPath url).data.dropWhile (fun c => c = '/'))
  if path = "" then "downloaded_pages/" ++ tab_name ++ "/index.html"
  else "downloaded_pages/" ++ tab_name ++ "/assets/" ++ path

/-! #### `process_html` (lines 140-214) -/

/-- The `update_url` closure inside `process_html` (lines 184-207).
`group1` is `match.group(1)`, `group0` the full matched text
`match.group(0)`.  `.error ()` models the `IndexError` raised by
`match.group(2)` when group 1 is empty (all three patterns have exactly one
group).  Note that the two skip branches return the ENTIRE match `group0`,
which the surrounding f-string replacement prefixes again. -/
def update_url (cfg : TDConfig) (base_url tab_name : String)
    (group1 group0 : String) : Except Unit String :=
  if group1 = "" then .error ()
  else
    let url := group1
    if strStartsWith url "data:" || strStartsWith url "blob:" || strStartsWith url "#" then
      .ok group0
    else
      let url :=
        if strStartsWith url "//" then cfg.scheme ++ ":" ++ url
        else if strStartsWith url "/" then cfg.base_domain ++ url
        else if !(strStartsWith url "http://" || strStartsWith url "https://") then
          urljoin base_url url
        else url
      if !(strStartsWith url cfg.base_domain) then .ok group0
      else
        let local_path := get_local_path url tab_name
        let relative_path :=
          os_relpath local_path (dirnameStr (get_local_path base_url tab_name))
        .ok ("\"" ++ relative_path ++ "\"")

def isQuoteChar (c : Char) : Bool := c = '"' || c = Char.ofNat 39

/-- Closing-quote search for the lazy group of `["\'](.*?)["\']`: the
minimal split `content ++ [quote] ++ rest` where `content` contains no
quote and no newline (`.` does not match newlines). -/
def findClose : List Char → Option (List Char × Char × List Char)
  | [] => none
  | c :: rest =>
    if isQuoteChar c then some ([], c, rest)
    else if c = '\n' then none
    else
      match findClose rest with
      | some (g, q, r) => some (c :: g, q, r)
      | none => none

/-- One `re.sub(kw ++ `["\'](.*?)["\']`, lambda m: kw ++ upd(m), html)`
pass (the `href=`/`src=` substitutions of lines 210-211): scan left to
right, replace each match and resume after it, advance one character when
no match starts at the current position.  The fuel is an upper bound on the
input length, which every recursive call strictly decreases. -/
def attrPassF (kw : List Char) (upd : String → String → Except Unit String) :
    Nat → List Char → Except Unit (List Char)
  | 0, l => .ok l
  | _ + 1, [] => .ok []
  | fuel + 1, c :: rest =>
    if kw.isPrefixOf (c :: rest) then
      match (c :: rest).drop kw.length with
      | q :: rest2 =>
        if isQuoteChar q then
          match findClose rest2 with
          | some (g, cq, after) =>
            match upd (String.mk g) (String.mk (kw ++ q :: (g ++ [cq]))) with
            | .error e => .error e
            | .ok u =>
              match attrPassF kw upd fuel after with
              | .error e => .error e
              | .ok t => .ok (kw ++ u.data ++ t)
          | none =>
            match attrPassF kw upd fuel rest with
            | .error e => .error e
            | .ok t => .ok (c :: t)
        else
          match attrPassF kw upd fuel rest with
          | .error e => .error e
          | .ok t => .ok (c :: t)
      | [] => .ok (c :: rest)
    else
      match attrPassF kw upd fuel rest with
      | .error e => .error e
      | .ok t => .ok (c :: t)

/-- Closing search for `url\(["\']?(.*?)["\']?\)`: the lazy group ends at
the first position where either `)` or a quote followed by `)` closes the
match. Returns (group, closing text, rest after the match). -/
def findCloseParen : List Char → Option (List Char × List Char × List Char)
  | [] => none
  | c :: rest =>
    if c = ')' then some ([], [')'], rest)
    else if isQuoteChar c then
      match rest with
      | ')' :: r2 => some ([], [c, ')'], r2)
      | _ =>
        match findCloseParen rest with
        | some (g, cl, r) => some (c :: g, cl, r)
        | none => none
    else if c = '\n' then none
    else
      match findCloseParen rest with
      | some (g, cl, r) => some (c :: g, cl, r)
      | none => none

/-- The `url\(...\)` substitution of line 212, replacement
`f'url({update_url(m)})'`.  The optional opening quote is consumed
greedily; if the close search fails with the quote consumed it also fails
without it, so no backtracking is needed. -/
def urlPassF (upd : String → String → Except Unit String) :
    Nat → List Char → Except Unit (List Char)
  | 0, l => .ok l
  | _ + 1, [] => .ok []
  | fuel + 1, c :: rest =>
    if ("url(".data).isPrefixOf (c :: rest) then
      let after := (c :: rest).drop 4
      let oc :=
        match after with
        | q :: r2 => if isQuoteChar q then ([q], r2) else (([] : List Char), after)
        | [] => (([] : List Char), after)
      match findCloseParen oc.2 with
      | some (g, cl, r) =>
        match upd (String.mk g) (String.mk ("url(".data ++ oc.1 ++ g ++ cl)) with
        | .error e => .error e
        | .ok u =>
          match urlPassF upd fuel r with
          | .error e => .error e
          | .ok t => .ok ("url(".data ++ u.data ++ ')' :: t)
      | none =>
        match urlPassF upd fuel rest with
        | .error e => .error e
        | .ok t => .ok (c :: t)
    else
      match urlPassF upd fuel rest with
      | .error e => .error e
      | .ok t => .ok (c :: t)

/-- The three `re.sub` passes of `process_html` (lines 210-212), in their
source order: `href=`, then `src=`, then `url(...)`. -/
def process_html_subs (cfg : TDConfig) (base_url tab_name : String)
    (html : String) : Except Unit String :=
  match attrPassF "href=".data (update_url cfg base_url tab_name)
      html.data.length html.data with
  | .error e => .error e
  | .ok l1 =>
    match attrPassF "src=".data (update_url cfg base_url tab_name)
        l1.length l1 with
    | .error e => .error e
    | .ok l2 =>
      match urlPassF (update_url cfg base_url tab_name) l2.length l2 with
      | .error e => .error e
      | .ok l3 => .ok (String.mk l3)

/-! The BeautifulSoup tree built at the start of `process_html`.  The model
records the source and which mutations were performed; `serializeSoup`
materialises them --- which `process_html` never calls. -/

structure Soup where
  source : String
  viewportInserted : Bool
  styleAppended : Bool
  watermarksRemoved : Bool
deriving DecidableEq

def parseSoup (h : String) : Soup := ⟨h, false, false, false⟩

def soupHasHead (s : Soup) : Bool := strContains s.source "<head"

def soupHasViewport (s : Soup) : Bool := strContains s.source "name=\"viewport\""

/-- Lines 145-152: insert a viewport meta tag when none exists. -/
def insertViewportMeta (s : Soup) : Soup :=
  if !soupHasViewport s && soupHasHead s then { s with viewportInserted := true } else s

/-- Lines 155-178: append the layout-fix `<style>` block to `head`. -/
def appendLayoutStyle (s : Soup) : Soup :=
  if soupHasHead s then { s with styleAppended := true } else s

/-- Method `remove_watermarks` (lines 101-138): decomposes watermark nodes. -/
def remove_watermarks (s : Soup) : Soup := { s with watermarksRemoved := true }

def viewportMetaTag : String :=
  "<meta content=\"width=device-width, initial-scale=1.0, maximum-scale=1.0, user-scalable=no, viewport-fit=cover\" name=\"viewport\"/>"

/-- Stand-in for the serialized layout-fix style block; its exact CSS text
is immaterial to the claims. -/
def layoutStyleTag : String := "<style>html-body-layout-fix</style>"

def insertAfterMarker (marker ins : List Char) : List Char → List Char
  | [] => []
  | c :: rest =>
    if marker.isPrefixOf (c :: rest) then
      marker ++ (ins ++ (c :: rest).drop marker.length)
    else c :: insertAfterMarker marker ins rest

def insertBeforeMarker (marker ins : List Char) : List Char → List Char
  | [] => []
  | c :: rest =>
    if marker.isPrefixOf (c :: rest) then ins ++ c :: rest
    else c :: insertBeforeMarker marker ins rest

/-- What `str(soup)` would return for the modified tree: the viewport meta
inserted at the start of `head`, the style block appended at its end. -/
def serializeSoup (s : Soup) : String :=
  let l1 := if s.viewportInserted
    then insertAfterMarker "<head>".data viewportMetaTag.data s.source.data
    else s.source.data
  let l2 := if s.styleAppended
    then insertBeforeMarker "</head>".data layoutStyleTag.data l1
    else l1
  String.mk l2

/-- Method `TabDownloader.process_html` (lines 140-214): parse the html, insert a
viewport meta tag, append the layout style, remove watermarks --- then
apply the three regex substitutions to the ORIGINAL `html` string and
return their result.  The modified tree is dead: it is never serialized. -/
def process_html (cfg : TDConfig) (base_url tab_name : String)
    (html : String) : Except Unit String :=
  let soup := remove_watermarks (appendLayoutStyle (insertViewportMeta (parseSoup html)))
  let _ := soup
  process_html_subs cfg base_url tab_name html

/-- The configuration used by the concrete evaluations below (the
dashboard URL shape of the `__main__` blocks). -/
def tdCfg : TDConfig := ⟨"https://flipsidecrypto.xyz/Sandesh/x"⟩

/-- C9: The output of `process_html` is exactly the three regex passes
applied to the input string: the soup mutations (viewport meta, layout
style, watermark removal) never reach the returned string, as witnessed on
a concrete page whose serialized modified tree differs from the (unchanged)
output. -/
theorem process_html_output_is_subs_only :
    (∀ (cfg : TDConfig) (base_url tab_name html : String),
      process_html cfg base_url tab_name html
        = process_html_subs cfg base_url tab_name html) ∧
    process_html tdCfg "https://flipsidecrypto.xyz/Sandesh/x" "about"
        "<html><head></head><body></body></html>"
      = .ok "<html><head></head><body></body></html>" ∧
    serializeSoup (remove_watermarks (appendLayoutStyle (insertViewportMeta
        (parseSoup "<html><head></head><body></body></html>"))))
      ≠ "<html><head></head><body></body></html>" := by
  refine ⟨fun _ _ _ _ => rfl, rfl, by decide⟩

/-- C2, counterexample: The regex rewrite pass is NOT idempotent: on
`<a href="#f">t</a>` the skip branch of `update_url` returns the whole
match, which the replacement template prefixes with `href=` again, so each
pass adds one more `href=`. -/
theorem process_html_not_idempotent :
    process_html tdCfg tdCfg.base_url "about" "<a href=\"#f\">t</a>"
      = .ok "<a href=href=\"#f\">t</a>" ∧
    process_html tdCfg tdCfg.base_url "about" "<a href=href=\"#f\">t</a>"
      = .ok "<a href=href=href=\"#f\">t</a>" ∧
    ("<a href=href=href=\"#f\">t</a>" : String) ≠ "<a href=href=\"#f\">t</a>" := by
  refine ⟨rfl, rfl, by decide⟩

/-! #### `TabDownloader.download_resource` (lines 38-99) -/

structure TDState where
  visited_urls : List String
  requests : Nat
  writes : List String
  sleeps : Nat
deriving DecidableEq

def tdInit : TDState := ⟨[], 0, [], 0⟩

/-- Which control path `download_resource` exited through.  The Python
function returns `None` on every path; this marker is pure observation. -/
inductive TDExit where
  | skippedVisited | skippedExternal | success | exhausted
deriving DecidableEq

/-- The retry loop (lines 60-99): `for attempt in range(max_retries + 1)`,
success at HTTP 200 writes the file and returns; otherwise sleep 1s between
attempts but not after the last one (`if attempt < max_retries`), and fall
through to failure after the loop.  `fuel` counts the remaining attempts,
so `fuel = 0` inside the loop body means this is the last attempt. -/
def tdLoop (o : Nat → HttpResp) (local_path : String) :
    Nat → TDState → TDState × TDExit
  | 0, st => (st, .exhausted)
  | fuel + 1, st =>
    let r := o st.requests
    let st1 : TDState := { st with requests := st.requests + 1 }
    if respOk r then ({ st1 with writes := local_path :: st1.writes }, .success)
    else
      let st2 := if fuel = 0 then st1 else { st1 with sleeps := st1.sleeps + 1 }
      tdLoop o local_path fuel st2

/-- URL normalisation of lines 46-51. -/
def td_normalize (cfg : TDConfig) (url : String) : String :=
  if strStartsWith url "//" then cfg.scheme ++ ":" ++ url
  else if strStartsWith url "/" then cfg.base_domain ++ url
  else if !(strStartsWith url "http://" || strStartsWith url "https://") then
    urljoin cfg.base_url url
  else url

/-- Method `TabDownloader.download_resource` (lines 38-99): skip empty or
already-visited URLs (the raw URL is recorded as visited BEFORE
normalisation), normalise, skip URLs that do not start with the
`base_domain` string, then run the retry loop against `get_local_path`. -/
def td_download_resource (o : Nat → HttpResp) (cfg : TDConfig) (st : TDState)
    (url tab_name : String) (max_retries : Nat) : TDState × TDExit :=
  if url = "" ∨ url ∈ st.visited_urls then (st, .skippedVisited)
  else
    let st := { st with visited_urls := url :: st.visited_urls }
    let nurl := td_normalize cfg url
    if !(strStartsWith nurl cfg.base_domain) then (st, .skippedExternal)
    else
      let local_path := get_local_path nurl tab_name
      tdLoop o local_path (max_retries + 1) st

lemma tdLoop_requests_le (o : Nat → HttpResp) (lp : String) :
    ∀ (fuel : Nat) (st : TDState),
      (tdLoop o lp fuel st).1.requests ≤ st.requests + fuel := by
  intro fuel
  induction fuel with
  | zero => intro st; exact Nat.le_refl _
  | succ f ih =>
    intro st
    rw [tdLoop]
    by_cases hr : respOk (o st.requests) = true
    · rw [if_pos hr]
      simp only
      omega
    · rw [if_neg hr]
      by_cases hf : f = 0
      · rw [if_pos hf]
        have h := ih { st with requests := st.requests + 1 }
        simp only at h ⊢
        omega
      · rw [if_neg hf]
        have h := ih { st with requests := st.requests + 1, sleeps := st.sleeps + 1 }
        simp only at h ⊢
        omega

lemma td_download_requests_le (o : Nat → HttpResp) (cfg : TDConfig)
    (st : TDState) (url tab_name : String) (mr : Nat) :
    (td_download_resource o cfg st url tab_name mr).1.requests
      ≤ st.requests + mr + 1 := by
  unfold td_download_resource
  by_cases h1 : url = "" ∨ url ∈ st.visited_urls
  · rw [if_pos h1]
    simp only
    omega
  · rw [if_neg h1]
    by_cases h2 : (!(strStartsWith (td_normalize cfg url) cfg.base_domain)) = true
    · rw [if_pos h2]
      simp only
      omega
    · rw [if_neg h2]
      have h := tdLoop_requests_le o
        (get_local_path (td_normalize cfg url) tab_name) (mr + 1)
        { st with visited_urls := url :: st.visited_urls }
      simp only at h ⊢
      omega

lemma tdLoop_all_fail (o : Nat → HttpResp) (lp : String) :
    ∀ (fuel : Nat) (st : TDState),
      (∀ k, k < fuel → respOk (o (st.requests + k)) = false) →
      (tdLoop o lp fuel st).2 = .exhausted ∧
      (tdLoop o lp fuel st).1.requests = st.requests + fuel ∧
      (tdLoop o lp fuel st).1.sleeps = st.sleeps + (fuel - 1) ∧
      (tdLoop o lp fuel st).1.writes = st.writes := by
  intro fuel
  induction fuel with
  | zero =>
    intro st _
    exact ⟨rfl, rfl, rfl, rfl⟩
  | succ f ih =>
    intro st hfail
    have h0 : respOk (o st.requests) = false := by
      have h := hfail 0 (Nat.succ_pos f)
      simpa using h
    rw [tdLoop, if_neg (by rw [h0]; exact Bool.false_ne_true)]
    by_cases hf : f = 0
    · subst hf
      rw [if_pos rfl]
      refine ⟨rfl, ?_, ?_, rfl⟩ <;> simp [tdLoop]
    · rw [if_neg hf]
      have ihs := ih { st with requests := st.requests + 1, sleeps := st.sleeps + 1 }
        (by
          intro k hk
          have h := hfail (k + 1) (by omega)
          simp only
          have he : st.requests + 1 + k = st.requests + (k + 1) := by omega
          rw [he]
          exact h)
      simp only at ihs
      refine ⟨ihs.1, ?_, ?_, ihs.2.2.2⟩
      · rw [ihs.2.1]; omega
      · rw [ihs.2.2.1]; omega

/-- C5: The retry loop makes at most `max_retries + 1` attempts; a
fetch failing on its first two attempts and succeeding on the third (with
the default `max_retries = 2`) exits through the success path: exactly 3
requests, exactly 2 one-second sleeps (between attempts, none after the
last), and the file recorded as written.  And when every attempt fails,
the loop falls through and RETURNS the failure (`return None` after the
loop, the `.exhausted` exit --- a value, not an exception), having made
exactly `max_retries + 1` requests, slept exactly `max_retries` times
(so no sleep after the final attempt) and written nothing. -/
theorem td_retry_behaviour (o : Nat → HttpResp) (cfg : TDConfig) (st : TDState)
    (url tab_name : String)
    (h1 : ¬ (url = "" ∨ url ∈ st.visited_urls))
    (h2 : strStartsWith (td_normalize cfg url) cfg.base_domain = true)
    (f0 : respOk (o st.requests) = false)
    (f1 : respOk (o (st.requests + 1)) = false)
    (s2 : respOk (o (st.requests + 1 + 1)) = true) :
    (td_download_resource o cfg st url tab_name 2).2 = .success ∧
    (td_download_resource o cfg st url tab_name 2).1.requests = st.requests + 3 ∧
    (td_download_resource o cfg st url tab_name 2).1.sleeps = st.sleeps + 2 ∧
    (td_download_resource o cfg st url tab_name 2).1.writes
      = get_local_path (td_normalize cfg url) tab_name :: st.writes ∧
    (∀ (o2 : Nat → HttpResp) (st2 : TDState) (u2 t2 : String) (mr : Nat),
      (td_download_resource o2 cfg st2 u2 t2 mr).1.requests
        ≤ st2.requests + mr + 1) ∧
    (∀ (o3 : Nat → HttpResp) (st3 : TDState) (u3 t3 : String) (mr : Nat),
      ¬ (u3 = "" ∨ u3 ∈ st3.visited_urls) →
      strStartsWith (td_normalize cfg u3) cfg.base_domain = true →
      (∀ k, k ≤ mr → respOk (o3 (st3.requests + k)) = false) →
      (td_download_resource o3 cfg st3 u3 t3 mr).2 = .exhausted ∧
      (td_download_resource o3 cfg st3 u3 t3 mr).1.requests
        = st3.requests + (mr + 1) ∧
      (td_download_resource o3 cfg st3 u3 t3 mr).1.sleeps = st3.sleeps + mr ∧
      (td_download_resource o3 cfg st3 u3 t3 mr).1.writes = st3.writes) := by
  have hrun : td_download_resource o cfg st url tab_name 2
      = ({ st with visited_urls := url :: st.visited_urls,
                   requests := st.requests + 1 + 1 + 1,
                   sleeps := st.sleeps + 1 + 1,
                   writes := get_local_path (td_normalize cfg url) tab_name
                     :: st.writes },
         .success) := by
    unfold td_download_resource
    rw [if_neg h1, if_neg (by rw [h2]; decide)]
    rw [tdLoop]
    simp only [f0, Bool.false_eq_true, if_false,
      (by decide : ((2 : Nat) = 0) = False), if_false]
    rw [tdLoop]
    simp only [f1, Bool.false_eq_true, if_false,
      (by decide : ((1 : Nat) = 0) = False), if_false]
    rw [tdLoop]
    simp only [s2, if_true]
  rw [hrun]
  refine ⟨rfl, by simp, by simp, rfl,
    fun o2 st2 u2 t2 mr => td_download_requests_le o2 cfg st2 u2 t2 mr, ?_⟩
  intro o3 st3 u3 t3 mr hg hsw hall
  unfold td_download_resource
  rw [if_neg hg, if_neg (by rw [hsw]; decide)]
  have hl := tdLoop_all_fail o3 (get_local_path (td_normalize cfg u3) t3) (mr + 1)
    { st3 with visited_urls := u3 :: st3.visited_urls }
    (by
      intro k hk
      simp only
      exact hall k (by omega))
  simp only at hl
  exact ⟨hl.1, by rw [hl.2.1], by rw [hl.2.2.1]; omega, hl.2.2.2⟩

/-- Concrete oracle for the C5 witness: network error, then HTTP 500, then
HTTP 200. -/
def c5Oracle : Nat → HttpResp := fun n =>
  if n = 0 then .err else if n = 1 then .status 500 "" "" else .status 200 "text/css" "x"

/-- Witness for C5. -/
theorem td_retry_behaviour_witness :
    (td_download_resource c5Oracle tdCfg tdInit
        "https://flipsidecrypto.xyz/static/app.css" "about" 2).2 = .success ∧
    (td_download_resource c5Oracle tdCfg tdInit
        "https://flipsidecrypto.xyz/static/app.css" "about" 2).1.requests = 3 ∧
    (td_download_resource c5Oracle tdCfg tdInit
        "https://flipsidecrypto.xyz/static/app.css" "about" 2).1.sleeps = 2 ∧
    (td_download_resource c5Oracle tdCfg tdInit
        "https://flipsidecrypto.xyz/static/app.css" "about" 2).1.writes
      = ["downloaded_pages/about/assets/static/app.css"] ∧
    (td_download_resource (fun _ => .err) tdCfg tdInit
        "https://flipsidecrypto.xyz/static/app.css" "about" 2).2 = .exhausted ∧
    (td_download_resource (fun _ => .err) tdCfg tdInit
        "https://flipsidecrypto.xyz/static/app.css" "about" 2).1.requests = 3 ∧
    (td_download_resource (fun _ => .err) tdCfg tdInit
        "https://flipsidecrypto.xyz/static/app.css" "about" 2).1.sleeps = 2 ∧
    (td_download_resource (fun _ => .err) tdCfg tdInit
        "https://flipsidecrypto.xyz/static/app.css" "about" 2).1.writes
      = ([] : List String) := by
  have h := td_retry_behaviour c5Oracle tdCfg tdInit
    "https://flipsidecrypto.xyz/static/app.css" "about"
    (by decide) (by decide) (by decide) (by decide) (by decide)
  have he := h.2.2.2.2.2 (fun _ => .err) tdInit
    "https://flipsidecrypto.xyz/static/app.css" "about" 2
    (by decide) (by decide) (fun k _ => rfl)
  exact ⟨h.1, by rw [h.2.1]; rfl, by rw [h.2.2.1]; rfl, by rw [h.2.2.2.1]; rfl,
    he.1, by rw [he.2.1]; rfl, by rw [he.2.2.1]; rfl, he.2.2.2⟩

/-- C3, evaluation at the failing input: The positive half that
does hold: a URL that does not start with the `base_domain` string is never
fetched (zero requests) --- but the rewriter does NOT leave the document
unchanged at a cross-origin URL (the attribute prefix is duplicated), and
the origin test is a string-prefix test, so a URL whose host merely extends
the base host is fetched even though its host differs. -/
theorem cross_origin_divergence :
    (td_download_resource (fun _ => .status 200 "text/css" "x") tdCfg tdInit
        "https://cdn.example.com/a.css" "about" 2)
      = ({ tdInit with visited_urls := ["https://cdn.example.com/a.css"] },
         .skippedExternal) ∧
    process_html tdCfg tdCfg.base_url "about"
        "<link href=\"https://cdn.example.com/a.css\"/>"
      = .ok "<link href=href=\"https://cdn.example.com/a.css\"/>" ∧
    ("<link href=href=\"https://cdn.example.com/a.css\"/>" : String)
      ≠ "<link href=\"https://cdn.example.com/a.css\"/>" ∧
    hostOf "https://flipsidecrypto.xyz.evil.com/x" ≠ hostOf tdCfg.base_url ∧
    (td_download_resource (fun _ => .status 200 "text/css" "x") tdCfg tdInit
        "https://flipsidecrypto.xyz.evil.com/x" "about" 2).1.requests = 1 := by
  refine ⟨rfl, rfl, by decide, by decide, rfl⟩

/-! ### `WebpageExplorer.download_resource` (webpage_explorer.py lines 333-445) -/

structure WEConfig where
  base_url : String
deriving DecidableEq

def WEConfig.scheme (cfg : WEConfig) : String := schemeOf cfg.base_url

def WEConfig.netloc (cfg : WEConfig) : String := netlocOf cfg.base_url

/-- Observable per-run state of a `WebpageExplorer` fetch session.  The
object has NO `downloaded_resources` attribute: `__init__` (lines 13-19)
sets only `base_url`, `parsed_base`, `session`, `browser`, `context` and
`page`, and no other method ever assigns the attribute. -/
structure WEState where
  requests : Nat
  writes : List String
  sleeps : Nat
deriving DecidableEq

def weInit : WEState := ⟨0, [], 0⟩

/-- How a call to `WebpageExplorer.download_resource` ends: the function
returns a value (Python returns `None` on the scheme-guard path), or the
call raises an unhandled exception out of the method. -/
inductive WEResult where
  | ret : Option String → WEResult
  | nameError : WEResult
deriving DecidableEq

/-- Lines 349-360: absolutise the URL against the base
(`startswith(('http:', 'https:'))`, `//`, `/`, `urljoin`), then
canonicalize by stripping the fragment (`url.split('#')[0]`) and the query
(`url.split('?')[0]`). -/
def we_canonical (cfg : WEConfig) (url : String) : String :=
  let url :=
    if !(strStartsWith url "http:" || strStartsWith url "https:") then
      if strStartsWith url "//" then cfg.scheme ++ ":" ++ url
      else if strStartsWith url "/" then cfg.scheme ++ "://" ++ cfg.netloc ++ url
      else urljoin cfg.base_url url
    else url
  takeBefore '?' (takeBefore '#' url)

/-- The immediate-skip guard of lines 345-347:
`if not url or url.startswith(('data:', 'javascript:', 'mailto:', 'tel:'))`. -/
def weSkipGuard (url : String) : Bool :=
  (url == "") || strStartsWith url "data:" || strStartsWith url "javascript:"
    || strStartsWith url "mailto:" || strStartsWith url "tel:"

/-- Method `WebpageExplorer.download_resource` (lines 333-445) as it
actually executes.  The scheme guard (lines 345-347) returns `None`
immediately.  Otherwise the URL is absolutised and canonicalized
(lines 349-360, pure) and then line 363,
`url_hash = hashlib.md5(url.encode()).hexdigest()`, raises `NameError`:
the module never imports `hashlib` (and `self.downloaded_resources`,
read at lines 364-365 and assigned at line 435, is never initialized, so
the cache lookup would raise `AttributeError` even with the import in
place).  The exception is raised outside the retry loop's `try`, so the
call crashes before any cache lookup, HTTP request, file write or sleep:
the Resource Record cache and the retry loop of lines 362-445 are
unreachable code. -/
def we_download_resource (cfg : WEConfig) (st : WEState)
    (url tab_name : String) (max_retries : Nat) : WEState × WEResult :=
  if weSkipGuard url then (st, .ret none)
  else
    let curl := we_canonical cfg url
    let _ := curl
    let _ := tab_name
    let _ := max_retries
    (st, .nameError)

/-- The `WebpageExplorer` configuration used by the concrete evaluations
(the dashboard URL shape of the `__main__` block). -/
def weCfg : WEConfig := ⟨"https://flipsidecrypto.xyz/Sandesh/x"⟩

/-- C1, evaluation at the failing input: the deduplication the claim
describes is unreachable.  Any URL that passes the scheme guard makes
`download_resource` raise `NameError` at line 363, before the cache
lookup, the HTTP request and the file write --- so calling the fetcher
twice with two spellings of one canonical URL (here a fragment and a query
variant, whose canonical forms agree) crashes both times with the state
untouched: zero requests, zero writes, and no local path is ever
returned, cached or deduplicated. -/
theorem fetcher_dedup_unreachable :
    we_canonical weCfg "https://flipsidecrypto.xyz/static/app.css#top"
      = we_canonical weCfg "https://flipsidecrypto.xyz/static/app.css?v=2" ∧
    we_download_resource weCfg weInit
        "https://flipsidecrypto.xyz/static/app.css#top" "about" 2
      = (weInit, .nameError) ∧
    we_download_resource weCfg weInit
        "https://flipsidecrypto.xyz/static/app.css?v=2" "about" 2
      = (weInit, .nameError) ∧
    weInit.requests = 0 ∧ weInit.writes = ([] : List String) := by
  exact ⟨by decide, rfl, rfl, rfl, rfl⟩

/-- C8: For `data:`, `javascript:`, `mailto:` and `tel:` URLs the
fetcher returns `None` immediately with the state untouched: no request,
no file write, no sleep --- a silent skip through the guard of lines
345-347, not an error path (in particular not the `NameError` crash that
every non-skipped URL hits at line 363). -/
theorem fetcher_skips_nonfetchable_schemes (cfg : WEConfig) (st : WEState)
    (url tab_name : String) (mr : Nat)
    (h : strStartsWith url "data:" = true ∨ strStartsWith url "javascript:" = true ∨
         strStartsWith url "mailto:" = true ∨ strStartsWith url "tel:" = true) :
    we_download_resource cfg st url tab_name mr = (st, .ret none) := by
  have hg : weSkipGuard url = true := by
    unfold weSkipGuard
    rcases h with h | h | h | h <;> simp [h]
  unfold we_download_resource
  rw [if_pos hg]

/-- Witness for C8. -/
theorem fetcher_skips_nonfetchable_schemes_witness :
    we_download_resource weCfg weInit
        "mailto:sandesh@example.com" "about" 2 = (weInit, .ret none) :=
  fetcher_skips_nonfetchable_schemes weCfg weInit
    "mailto:sandesh@example.com" "about" 2 (Or.inr (Or.inr (Or.inl (by decide))))

end Port
